import Mathlib

/-!
Verification of the text-matching and scoring engine of the
AI Job Recommendation Platform (modules/recommender.py, modules/ats_scorer.py,
modules/visualizer.py).

Texts are modelled as lists of characters (`Text`).  Python string operations
(lower, strip, regex character classes over the ASCII range, split, substring
test via the `in` operator) are modelled by executable Lean functions below.
The sklearn TF-IDF / cosine-similarity numeric kernels are external library
calls; where a result of theirs flows through the code under scrutiny it is
modelled as an explicit oracle parameter, and every theorem about such code
holds for every oracle.
-/

namespace JobPlatform

/-- Texts are lists of characters. -/
abbrev Text := List Char

/-- Coercion from Lean string literals to the `Text` model. -/
def strT (s : String) : Text := s.toList

/-- Model of the regex class accepted by the Python whitespace class over ASCII:
space, tab, newline, carriage return, vertical tab, form feed. -/
def isWsChar (c : Char) : Bool :=
  c.toNat = 32 || c.toNat = 9 || c.toNat = 10 || c.toNat = 13 || c.toNat = 11 || c.toNat = 12

/-- Characters matched by the regex class in a-z or 0-9. -/
def isLowerAlnum (c : Char) : Bool :=
  (97 ≤ c.toNat && c.toNat ≤ 122) || (48 ≤ c.toNat && c.toNat ≤ 57)

/-- Characters kept by the substitution step of preprocess_text:
the complement of the pattern in square brackets a-z, 0-9, whitespace. -/
def allowedChar (c : Char) : Bool := isLowerAlnum c || isWsChar c

/-- ASCII model of Python str.lower applied characterwise. -/
def lowerChar (c : Char) : Char :=
  if 65 ≤ c.toNat && c.toNat ≤ 90 then Char.ofNat (c.toNat + 32) else c

/-- Model of text.lower(). -/
def toLowerL (t : Text) : Text := t.map lowerChar

/-- One character of the re.sub step replacing disallowed characters by a space. -/
def sanitizeChar (c : Char) : Char := if allowedChar c then c else ' '

/-- Model of re.sub replacing every character outside a-z, 0-9, whitespace by a space. -/
def sanitize (t : Text) : Text := t.map sanitizeChar

/-- Model of re.sub collapsing each maximal whitespace run to a single space. -/
def collapseWs : Text → Text
  | [] => []
  | [c] => [if isWsChar c then ' ' else c]
  | c :: d :: rest =>
    if isWsChar c && isWsChar d then collapseWs (d :: rest)
    else (if isWsChar c then ' ' else c) :: collapseWs (d :: rest)

/-- Leading-whitespace removal (half of Python str.strip). -/
def stripLeft (t : Text) : Text := t.dropWhile isWsChar

/-- Trailing-whitespace removal (the other half of Python str.strip). -/
def rstripWs : Text → Text
  | [] => []
  | c :: rest =>
    if rstripWs rest = [] then (if isWsChar c then [] else [c]) else c :: rstripWs rest

/-- Model of Python str.strip (whitespace from both ends). -/
def stripWs (t : Text) : Text := rstripWs (stripLeft t)

/-- preprocess_text from modules/recommender.py lines 30-46 and the identical
function in modules/ats_scorer.py lines 12-19: lowercase, replace characters
outside a-z 0-9 whitespace by a space, collapse whitespace runs, strip.
The non-string / absent input guard of the Python code is outside the `Text`
model (every `Text` is a string). -/
def preprocess_text (t : Text) : Text := stripWs (collapseWs (sanitize (toLowerL t)))

/-- Model of the Python substring test for a needle against the start of a text. -/
def startsWithL : Text → Text → Bool
  | [], _ => true
  | _ :: _, [] => false
  | a :: as, b :: bs => a == b && startsWithL as bs

/-- Model of the Python expression needle in haystack (contiguous substring test). -/
def containsSub (needle : Text) : Text → Bool
  | [] => needle.isEmpty
  | c :: rest => startsWithL needle (c :: rest) || containsSub needle rest

/-- Model of re.split over a character predicate: splits a text at every
separator character, keeping empty segments (Python semantics: splitting the
empty string yields one empty segment). -/
def splitOnPred (p : Char → Bool) : Text → List Text
  | [] => [[]]
  | c :: rest =>
    let r := splitOnPred p rest
    if p c then [] :: r
    else
      match r with
      | [] => [[c]]
      | w :: ws => (c :: w) :: ws

/-- Model of the str.join operation with a single-space separator. -/
def joinSp (ts : List Text) : Text := List.intercalate (strT " ") ts

/-- Insert an element into a sorted list, after every earlier element it does
not strictly have to precede (keeping insertion stable). -/
def insertSorted {α : Type} (le : α → α → Bool) (x : α) : List α → List α
  | [] => [x]
  | y :: ys => if le x y then x :: y :: ys else y :: insertSorted le x ys

/-- Stable insertion sort.  Python list.sort and sorted are stable sorts, and
every stable sort computes the same output list, so this models them exactly
(Python sorted with reverse set corresponds to the flipped comparison). -/
def stableSort {α : Type} (le : α → α → Bool) : List α → List α
  | [] => []
  | x :: xs => insertSorted le x (stableSort le xs)

/-- Job record as consumed by the matching / analytics code: free-text fields
plus the optional numeric salary bounds used by the analytics module. -/
structure Job where
  title : Text := []
  description : Text := []
  category : Text := []
  company : Text := []
  salary_min : Option ℚ := none
  salary_max : Option ℚ := none
deriving DecidableEq

/-- The skills field of a profile may be a single delimited string or a list
of strings, mirroring the isinstance dispatch in the Python code. -/
inductive SkillsField where
  | str (s : Text)
  | list (l : List Text)
deriving DecidableEq

/-- User profile as consumed by the recommender and the ATS scorer. -/
structure Profile where
  skills : SkillsField := .str []
  education : Text := []
  experience : Text := []
  location : Text := []
deriving DecidableEq

/-- combine_user_profile from modules/recommender.py lines 49-76: join the
truthy fields (skills, education, experience, location) with single spaces;
a list-valued skills field is itself space-joined first. -/
def combine_user_profile (p : Profile) : Text :=
  let parts : List Text :=
    (match p.skills with
      | .str s => if s = [] then [] else [s]
      | .list l => if l = [] then [] else [joinSp l]) ++
    (if p.education = [] then [] else [p.education]) ++
    (if p.experience = [] then [] else [p.experience]) ++
    (if p.location = [] then [] else [p.location])
  joinSp parts

/-- extract_job_text from modules/recommender.py lines 79-103: join the truthy
title, description, category and company fields with single spaces. -/
def extract_job_text (j : Job) : Text :=
  let parts : List Text :=
    (if j.title = [] then [] else [j.title]) ++
    (if j.description = [] then [] else [j.description]) ++
    (if j.category = [] then [] else [j.category]) ++
    (if j.company = [] then [] else [j.company])
  joinSp parts

/-- calculate_similarity from modules/recommender.py lines 106-149.  The
falsy-input guard returns a zero vector of the job-list length.  The TF-IDF
construction and cosine similarity over the non-degenerate inputs are sklearn
library calls; they are modelled by the oracle argument (whose value also
absorbs the try/except fallback of the Python code), so every theorem stated
about this function holds for an arbitrary oracle. -/
def calculate_similarity (oracle : Text → List Text → List ℚ)
    (user_profile_text : Text) (job_texts : List Text) : List ℚ :=
  if user_profile_text = [] ∨ job_texts = [] then List.replicate job_texts.length 0
  else oracle user_profile_text job_texts

/-- Fixed skill vocabulary of identify_skill_gaps, modules/recommender.py
lines 174-180. -/
def skill_keywords_rec : List Text :=
  [strT "python", strT "java", strT "javascript", strT "html", strT "css",
   strT "sql", strT "react", strT "angular", strT "vue", strT "node",
   strT "express", strT "django", strT "flask", strT "spring", strT "mongodb",
   strT "mysql", strT "postgresql", strT "aws", strT "azure", strT "docker",
   strT "kubernetes", strT "git", strT "linux", strT "agile", strT "scrum",
   strT "machine learning", strT "ai", strT "data science", strT "tensorflow",
   strT "pytorch", strT "pandas", strT "numpy", strT "excel", strT "tableau",
   strT "powerbi", strT "salesforce"]

/-- identify_skill_gaps from modules/recommender.py lines 152-191: guard on
falsy inputs; lowercase and strip the user skills into a set; normalize the
job text; keep the vocabulary skills that occur as substrings of the
normalized job text and are absent from the user set; return at most 10.
The Python code materializes the missing skills through a set whose iteration
order is unspecified; it is modelled here by first-occurrence deduplication
(the vocabulary scan produces no duplicates, so the same collection of skills
results, and the theorems proved below are order-independent).  The variable
job_words computed by word_tokenize in the Python code is dead (never used)
and is omitted. -/
def identify_skill_gaps (user_skills : List Text) (job_description : Text) : List Text :=
  if job_description = [] ∨ user_skills = [] then []
  else
    let user_skills_set :=
      (user_skills.filter (fun s => !s.isEmpty)).map (fun s => stripWs (toLowerL s))
    let job_text := preprocess_text (toLowerL job_description)
    let job_skills := skill_keywords_rec.filter (fun kw => containsSub kw job_text)
    let missing_skills := job_skills.filter (fun s => !(decide (s ∈ user_skills_set)))
    missing_skills.dedup.take 10

/-- One produced recommendation: the job, its similarity score and its
skill-gap list. -/
structure RecommendationEntry where
  job : Job
  similarity_score : ℚ
  skill_gaps : List Text
deriving DecidableEq

/-- Skill parsing of recommend_jobs, modules/recommender.py lines 222-228:
a list field is used as is, a string field is split at commas and semicolons
and each piece stripped. -/
def parseUserSkills (p : Profile) : List Text :=
  match p.skills with
  | .str s => if s = [] then [] else (splitOnPred (fun c => c == ',' || c == ';') s).map stripWs
  | .list l => l

/-- recommend_jobs from modules/recommender.py lines 194-249: guard on an
empty job list and on an empty combined profile text; compute the per-job
similarities (index-guarded lookup, defaulting to 0); attach skill gaps; sort
descending by similarity score with a stable sort (Python list.sort with
reverse=True is stable); truncate to top_n. -/
def recommend_jobs (oracle : Text → List Text → List ℚ)
    (user_profile : Profile) (jobs : List Job) (top_n : Nat) : List RecommendationEntry :=
  if jobs = [] then []
  else
    let user_profile_text := combine_user_profile user_profile
    if user_profile_text = [] then []
    else
      let job_texts := jobs.map extract_job_text
      let similarities := calculate_similarity oracle user_profile_text job_texts
      let user_skills := parseUserSkills user_profile
      let results := jobs.enum.map (fun p =>
        { job := p.2
          similarity_score := similarities.getD p.1 0
          skill_gaps := identify_skill_gaps user_skills p.2.description })
      (stableSort
        (fun a b => decide (b.similarity_score ≤ a.similarity_score)) results).take top_n

/-- Fixed common-skills vocabulary of calculate_skills_match,
modules/ats_scorer.py lines 101-106 (27 entries). -/
def common_skills : List Text :=
  [strT "python", strT "java", strT "javascript", strT "react", strT "angular",
   strT "vue", strT "node", strT "sql", strT "mysql", strT "postgresql",
   strT "mongodb", strT "aws", strT "azure", strT "docker", strT "kubernetes",
   strT "git", strT "agile", strT "scrum", strT "machine learning", strT "ai",
   strT "data science", strT "html", strT "css", strT "typescript",
   strT "c++", strT "c#", strT "php"]

/-- Result record of calculate_skills_match (the dictionary returned by the
Python function). -/
structure SkillsMatchResult where
  score : ℚ
  matched : List Text
  missing : List Text
  total_required : Nat
  total_matched : Nat
  percentage : ℚ
deriving DecidableEq

/-- Skill-list normalization of calculate_skills_match, modules/ats_scorer.py
lines 90-93: a string is split at commas with each piece stripped then
lowercased; a list is lowercased elementwise. -/
def atsUserSkillsList (user_skills : SkillsField) : List Text :=
  match user_skills with
  | .str s => (splitOnPred (fun c => c == ',') s).map (fun x => toLowerL (stripWs x))
  | .list l => l.map toLowerL

/-- calculate_skills_match from modules/ats_scorer.py lines 78-123: matched =
user skills occurring as substrings of the lowercased job text; required =
common-skills vocabulary entries occurring in the job text; missing = required
minus the (lowercased) user skills; percentage = matched/required times 100
when required is non-empty, else 100 when anything matched, else 50; the score
is capped at 100. -/
def calculate_skills_match (user_skills : SkillsField) (job_description : Text) :
    SkillsMatchResult :=
  let user_skills_list := atsUserSkillsList user_skills
  let job_text_lower := toLowerL job_description
  let matched_skills := user_skills_list.filter (fun s => containsSub s job_text_lower)
  let required_skills := common_skills.filter (fun s => containsSub s job_text_lower)
  let missing_skills := required_skills.filter
    (fun s => !(decide (s ∈ user_skills_list.map toLowerL)))
  let skills_percentage : ℚ :=
    if required_skills ≠ [] then ((matched_skills.length : ℚ) / required_skills.length) * 100
    else if matched_skills ≠ [] then 100 else 50
  { score := min skills_percentage 100
    matched := matched_skills.take 10
    missing := missing_skills.take 10
    total_required := required_skills.length
    total_matched := matched_skills.length
    percentage := min skills_percentage 100 }

/-- Degree-keyword table of calculate_education_match, modules/ats_scorer.py
lines 172-183, in source (insertion) order. -/
def education_levels : List (Text × ℚ) :=
  [(strT "phd", 100), (strT "doctorate", 100), (strT "master", 80),
   (strT "msc", 80), (strT "mba", 80), (strT "bachelor", 60), (strT "bsc", 60),
   (strT "associate", 40), (strT "diploma", 30), (strT "high school", 20)]

/-- The highest degree level whose keyword occurs as a substring of a
(lowercased) text: the loop of modules/ats_scorer.py lines 189-202. -/
def bestLevel (t : Text) : ℚ :=
  education_levels.foldl
    (fun acc p => if containsSub p.1 t && decide (acc < p.2) then p.2 else acc) 0

/-- calculate_education_match from modules/ats_scorer.py lines 162-221,
reduced to the score field of the returned dictionary (the accompanying
details string carries no further logic).  Falsy inputs short-circuit to 50;
otherwise the branch cascade on the detected user and required degree levels
applies, and the result is capped at 100. -/
def calculate_education_match (user_education job_description : Text) : ℚ :=
  if user_education = [] ∨ job_description = [] then 50
  else
    let user_level := bestLevel (toLowerL user_education)
    let required_level := bestLevel (toLowerL job_description)
    let score : ℚ :=
      if required_level = 0 then 80
      else if required_level ≤ user_level then 100
      else if 0 < user_level then (user_level / required_level) * 100
      else 40
    min score 100

/-- Model of Python round(x, 1) over the rationals: one decimal place,
half-integers rounded up. -/
def pyRound1 (q : ℚ) : ℚ := ((⌊q * 10 + 1 / 2⌋ : ℤ) : ℚ) / 10

/-- Weighted overall-score combination of calculate_ats_score,
modules/ats_scorer.py lines 247-252 and 284: 35 percent keywords, 35 percent
skills, 20 percent experience, 10 percent education, rounded to one decimal
place.  The four sub-scores are the inputs; their own computation (TF-IDF
keyword extraction and the sub-scorers above) feeds this combination in the
Python code. -/
def overall_score (kw sk ex ed : ℚ) : ℚ :=
  pyRound1 (kw * 0.35 + sk * 0.35 + ex * 0.20 + ed * 0.10)

/-- Label-to-synonyms table of analyze_skill_demand, modules/visualizer.py
lines 20-39, in source (insertion) order. -/
def skill_keywords : List (Text × List Text) :=
  [(strT "Python", [strT "python"]),
   (strT "Java", [strT "java"]),
   (strT "JavaScript", [strT "javascript", strT "js"]),
   (strT "React", [strT "react"]),
   (strT "SQL", [strT "sql", strT "mysql", strT "postgresql"]),
   (strT "AWS", [strT "aws", strT "amazon web services"]),
   (strT "Docker", [strT "docker"]),
   (strT "Machine Learning",
     [strT "machine learning", strT "ml", strT "tensorflow", strT "pytorch"]),
   (strT "Data Science", [strT "data science", strT "pandas", strT "numpy"]),
   (strT "Node.js", [strT "node", strT "nodejs"]),
   (strT "Angular", [strT "angular"]),
   (strT "Vue", [strT "vue"]),
   (strT "Django", [strT "django"]),
   (strT "Flask", [strT "flask"]),
   (strT "Spring", [strT "spring"]),
   (strT "MongoDB", [strT "mongodb"]),
   (strT "Git", [strT "git", strT "github"]),
   (strT "Kubernetes", [strT "kubernetes", strT "k8s"])]

/-- The space-joined lowercased concatenation of all job descriptions built by
analyze_skill_demand, modules/visualizer.py line 42. -/
def corpusOf (jobs : List Job) : Text := joinSp (jobs.map (fun j => toLowerL j.description))

/-- Per-label count of analyze_skill_demand, modules/visualizer.py line 45:
the number of the label's synonym keywords occurring as substrings of the
corpus. -/
def countKws (kws : List Text) (corpus : Text) : Nat :=
  (kws.filter (fun kw => containsSub kw corpus)).length

/-- analyze_skill_demand from modules/visualizer.py lines 10-49: keep the
labels with a positive synonym count over the joined corpus and sort them
descending by count (Python sorted with reverse=True, a stable sort). -/
def analyze_skill_demand (jobs : List Job) : List (Text × Nat) :=
  let corpus := corpusOf jobs
  let skill_counts := skill_keywords.filterMap (fun p =>
    let c := countKws p.2 corpus
    if 0 < c then some (p.1, c) else none)
  stableSort (fun a b => decide (b.2 ≤ a.2)) skill_counts

/-- Salary statistics record returned by calculate_salary_statistics. -/
structure SalaryStats where
  average : ℚ
  min : ℚ
  max : ℚ
  median : ℚ
deriving DecidableEq

/-- Salary pooling loop of calculate_salary_statistics, modules/visualizer.py
lines 62-67: per job, the truthy positive salary_min then salary_max. -/
def pooledSalaries : List Job → List ℚ
  | [] => []
  | j :: rest =>
    (match j.salary_min with
      | some v => if 0 < v then [v] else []
      | none => []) ++
    (match j.salary_max with
      | some v => if 0 < v then [v] else []
      | none => []) ++
    pooledSalaries rest

/-- Minimum of a non-empty salary list (Python builtin min over a list),
0 on the empty list, which the caller rules out. -/
def listMin : List ℚ → ℚ
  | [] => 0
  | a :: rest => rest.foldl min a

/-- Maximum of a non-empty salary list (Python builtin max over a list),
0 on the empty list, which the caller rules out. -/
def listMax : List ℚ → ℚ
  | [] => 0
  | a :: rest => rest.foldl max a

/-- calculate_salary_statistics from modules/visualizer.py lines 52-91:
pool the positive salary bounds; return the all-zero record when the pool is
empty (both the first check and the re-filtered second check of the Python
code are kept); otherwise average, min, max, and the sorted pool's element at
index n / 2. -/
def calculate_salary_statistics (jobs : List Job) : SalaryStats :=
  let salaries := pooledSalaries jobs
  if salaries = [] then ⟨0, 0, 0, 0⟩
  else
    let salaries2 := salaries.filter (fun s => decide (0 < s))
    if salaries2 = [] then ⟨0, 0, 0, 0⟩
    else
      { average := salaries2.sum / (salaries2.length : ℚ)
        min := listMin salaries2
        max := listMax salaries2
        median := (stableSort (fun a b => decide (a ≤ b)) salaries2).getD
          (salaries2.length / 2) 0 }

/-- Characters that can occur in the output of preprocess_text: lowercase
alphanumerics and the plain space. -/
def goodChar (c : Char) : Bool := isLowerAlnum c || c == ' '

/-- No two adjacent whitespace characters occur in the text. -/
def noAdjWs : Text → Bool
  | [] => true
  | [_] => true
  | c :: d :: rest => (!(isWsChar c && isWsChar d)) && noAdjWs (d :: rest)

/-- Canonical form of preprocess_text output: only good characters, no two
adjacent whitespace characters, and no leading or trailing whitespace. -/
def canonP (l : Text) : Prop :=
  (∀ c ∈ l, goodChar c = true) ∧ noAdjWs l = true ∧
  (∀ c, l.head? = some c → isWsChar c = false) ∧
  (∀ c, l.getLast? = some c → isWsChar c = false)

end JobPlatform

namespace JobPlatform

theorem lowerChar_eq_self {c : Char} (h : goodChar c = true) : lowerChar c = c := by
  simp only [goodChar, isLowerAlnum, Bool.or_eq_true, Bool.and_eq_true,
    decide_eq_true_eq, beq_iff_eq] at h
  rcases h with (h | h) | h
  · rw [lowerChar, if_neg (by simp only [Bool.and_eq_true, decide_eq_true_eq]; omega)]
  · rw [lowerChar, if_neg (by simp only [Bool.and_eq_true, decide_eq_true_eq]; omega)]
  · subst h; decide

theorem allowed_of_good {c : Char} (h : goodChar c = true) : allowedChar c = true := by
  simp only [goodChar, Bool.or_eq_true, beq_iff_eq] at h
  rcases h with h | h
  · simp [allowedChar, h]
  · subst h; decide

theorem good_of_allowed_not_ws {c : Char} (h1 : allowedChar c = true)
    (h2 : isWsChar c = false) : goodChar c = true := by
  simp only [allowedChar, Bool.or_eq_true] at h1
  rcases h1 with h | h
  · simp [goodChar, h]
  · rw [h] at h2; cases h2

theorem space_of_good_ws {c : Char} (h : goodChar c = true)
    (hw : isWsChar c = true) : c = ' ' := by
  simp only [goodChar, Bool.or_eq_true, beq_iff_eq] at h
  rcases h with h | h
  · exfalso
    simp only [isLowerAlnum, isWsChar, Bool.or_eq_true, Bool.and_eq_true,
      decide_eq_true_eq] at h hw
    omega
  · exact h

theorem sanitizeChar_allowed (c : Char) : allowedChar (sanitizeChar c) = true := by
  rw [sanitizeChar]
  split
  · assumption
  · decide

theorem sanitizeChar_eq_self {c : Char} (h : goodChar c = true) : sanitizeChar c = c := by
  rw [sanitizeChar, if_pos (allowed_of_good h)]

theorem map_eq_self_of_fix {f : Char → Char} :
    ∀ {l : Text}, (∀ c ∈ l, f c = c) → l.map f = l := by
  intro l h
  induction l with
  | nil => rfl
  | cons c rest ih =>
    simp only [List.map_cons, h c (by simp), List.cons.injEq, true_and]
    exact ih (fun x hx => h x (by simp [hx]))

theorem collapseWs_head? (d : Char) (rest : Text) :
    (collapseWs (d :: rest)).head? = some (if isWsChar d then ' ' else d) := by
  induction rest generalizing d with
  | nil => simp [collapseWs]
  | cons e rest2 ih =>
    simp only [collapseWs]
    split
    · next h =>
      rw [ih e]
      simp only [Bool.and_eq_true] at h
      simp [h.1, h.2]
    · simp

theorem collapseWs_ne_nil (d : Char) (rest : Text) : collapseWs (d :: rest) ≠ [] := by
  intro h
  have := collapseWs_head? d rest
  rw [h] at this
  cases this

theorem noAdjWs_cons (x : Char) (xs : Text) :
    noAdjWs (x :: xs) = true ↔
      noAdjWs xs = true ∧
        ∀ y, xs.head? = some y → (isWsChar x && isWsChar y) = false := by
  cases xs with
  | nil => simp [noAdjWs]
  | cons y ys =>
    simp only [noAdjWs, Bool.and_eq_true, Bool.not_eq_true', List.head?_cons,
      Option.some.injEq]
    constructor
    · rintro ⟨h1, h2⟩
      exact ⟨h2, fun z hz => hz ▸ h1⟩
    · rintro ⟨h1, h2⟩
      exact ⟨h2 y rfl, h1⟩

theorem noAdjWs_tail {x : Char} {xs : Text} (h : noAdjWs (x :: xs) = true) :
    noAdjWs xs = true := ((noAdjWs_cons x xs).mp h).1

theorem noAdjWs_collapseWs (t : Text) : noAdjWs (collapseWs t) = true := by
  induction t with
  | nil => simp [collapseWs, noAdjWs]
  | cons c rest ih =>
    cases rest with
    | nil => simp [collapseWs, noAdjWs]
    | cons d rest2 =>
      simp only [collapseWs]
      split
      · exact ih
      · next h =>
        rw [noAdjWs_cons]
        refine ⟨ih, ?_⟩
        intro y hy
        rw [collapseWs_head? d rest2] at hy
        simp only [Option.some.injEq] at hy
        subst hy
        by_cases hd : isWsChar d = true
        · have hc : isWsChar c = false := by
            cases hcc : isWsChar c
            · rfl
            · exact absurd (by simp [hcc, hd]) h
          simp [hc]
        · simp only [Bool.not_eq_true] at hd
          simp [hd]

theorem collapseWs_all_good (t : Text) (h : ∀ c ∈ t, allowedChar c = true) :
    ∀ c ∈ collapseWs t, goodChar c = true := by
  induction t with
  | nil => simp [collapseWs]
  | cons c rest ih =>
    cases rest with
    | nil =>
      simp only [collapseWs, List.mem_singleton]
      intro x hx
      subst hx
      split
      · decide
      · next hws =>
        exact good_of_allowed_not_ws (h c (by simp)) (by simpa using hws)
    | cons d rest2 =>
      simp only [collapseWs]
      split
      · exact ih (fun x hx => h x (by simp [List.mem_cons] at hx ⊢; tauto))
      · intro x hx
        rcases List.mem_cons.mp hx with hx | hx
        · subst hx
          split
          · decide
          · next hws =>
            exact good_of_allowed_not_ws (h c (by simp)) (by simpa using hws)
        · exact ih (fun z hz => h z (by simp [List.mem_cons] at hz ⊢; tauto)) x hx

theorem head?_stripLeft (t : Text) :
    ∀ c, (stripLeft t).head? = some c → isWsChar c = false := by
  induction t with
  | nil => intro c hc; simp [stripLeft] at hc
  | cons d rest ih =>
    intro c hc
    rw [stripLeft, List.dropWhile_cons] at hc
    split at hc
    · exact ih c hc
    · next hd =>
      simp only [List.head?_cons, Option.some.injEq] at hc
      subst hc
      simpa using hd

theorem mem_stripLeft {t : Text} {c : Char} (h : c ∈ stripLeft t) : c ∈ t :=
  (List.dropWhile_sublist isWsChar).mem h

theorem noAdjWs_stripLeft (t : Text) (h : noAdjWs t = true) :
    noAdjWs (stripLeft t) = true := by
  induction t with
  | nil => simpa [stripLeft] using h
  | cons d rest ih =>
    rw [stripLeft, List.dropWhile_cons]
    split
    · exact ih (noAdjWs_tail h)
    · exact h

theorem rstripWs_head? (t : Text) :
    rstripWs t = [] ∨ (rstripWs t).head? = t.head? := by
  cases t with
  | nil => exact Or.inl rfl
  | cons c rest =>
    by_cases hr : rstripWs rest = []
    · rw [rstripWs]
      simp only [hr, if_pos]
      by_cases hc : isWsChar c
      · simp [hc]
      · simp [hc]
    · rw [rstripWs]
      simp only [hr, if_neg, ite_false]
      right
      simp

theorem mem_rstripWs {c : Char} : ∀ {t : Text}, c ∈ rstripWs t → c ∈ t := by
  intro t
  induction t with
  | nil => simp [rstripWs]
  | cons d rest ih =>
    intro h
    rw [rstripWs] at h
    split at h
    · split at h
      · cases h
      · simp only [List.mem_singleton] at h
        simp [h]
    · rcases List.mem_cons.mp h with h | h
      · simp [h]
      · exact List.mem_cons_of_mem _ (ih h)

theorem noAdjWs_rstripWs (t : Text) (h : noAdjWs t = true) :
    noAdjWs (rstripWs t) = true := by
  induction t with
  | nil => simpa [rstripWs] using h
  | cons c rest ih =>
    rw [rstripWs]
    split
    · split
      · rfl
      · simp [noAdjWs]
    · next hr =>
      rw [noAdjWs_cons]
      refine ⟨ih (noAdjWs_tail h), ?_⟩
      intro y hy
      rcases rstripWs_head? rest with h0 | h0
      · exact absurd h0 hr
      · rw [h0] at hy
        exact ((noAdjWs_cons c rest).mp h).2 y hy

theorem getLast?_cons_of_ne {c : Char} {xs : Text} (h : xs ≠ []) :
    (c :: xs).getLast? = xs.getLast? := by
  cases xs with
  | nil => exact absurd rfl h
  | cons d rest => exact List.getLast?_cons_cons

theorem getLast?_rstripWs :
    ∀ (t : Text) (c : Char), (rstripWs t).getLast? = some c → isWsChar c = false := by
  intro t
  induction t with
  | nil => intro c hc; cases hc
  | cons d rest ih =>
    intro c hc
    rw [rstripWs] at hc
    split at hc
    · split at hc
      · cases hc
      · next hd =>
        simp only [List.getLast?_singleton, Option.some.injEq] at hc
        subst hc
        simpa using hd
    · next hr =>
      rw [getLast?_cons_of_ne hr] at hc
      exact ih c hc

theorem rstripWs_eq_self :
    ∀ (t : Text), (∀ c, t.getLast? = some c → isWsChar c = false) →
      rstripWs t = t := by
  intro t
  induction t with
  | nil => intro _; rfl
  | cons c rest ih =>
    intro h
    cases rest with
    | nil =>
      have hc : isWsChar c = false := h c (by simp)
      simp [rstripWs, hc]
    | cons d rest2 =>
      have hrest : ∀ x, (d :: rest2 : Text).getLast? = some x → isWsChar x = false := by
        intro x hx
        exact h x (by rw [getLast?_cons_of_ne (by simp)]; exact hx)
      have hr : rstripWs (d :: rest2) = d :: rest2 := ih hrest
      rw [rstripWs, hr, if_neg (by simp)]

theorem stripLeft_eq_self (t : Text)
    (h : ∀ c, t.head? = some c → isWsChar c = false) : stripLeft t = t := by
  cases t with
  | nil => rfl
  | cons c rest =>
    rw [stripLeft, List.dropWhile_cons, if_neg]
    simp [h c rfl]

theorem collapseWs_eq_self :
    ∀ (l : Text), (∀ c ∈ l, goodChar c = true) → noAdjWs l = true →
      collapseWs l = l := by
  intro l
  induction l with
  | nil => intro _ _; rfl
  | cons c rest ih =>
    intro hg hn
    cases rest with
    | nil =>
      by_cases hc : isWsChar c = true
      · have : c = ' ' := space_of_good_ws (hg c (by simp)) hc
        subst this
        simp [collapseWs]
      · simp only [Bool.not_eq_true] at hc
        simp [collapseWs, hc]
    | cons d rest2 =>
      have hcd : (isWsChar c && isWsChar d) = false := by
        have := ((noAdjWs_cons c (d :: rest2)).mp hn).2 d rfl
        exact this
      rw [collapseWs, if_neg (by simp [hcd])]
      have htail := ih (fun x hx => hg x (List.mem_cons_of_mem _ hx)) (noAdjWs_tail hn)
      rw [htail]
      by_cases hc : isWsChar c = true
      · have : c = ' ' := space_of_good_ws (hg c (by simp)) hc
        subst this
        simp
      · simp only [Bool.not_eq_true] at hc
        simp [hc]

theorem preprocess_eq_self_of_canon {l : Text} (h : canonP l) : preprocess_text l = l := by
  obtain ⟨hg, hn, hh, hl⟩ := h
  have h1 : toLowerL l = l := map_eq_self_of_fix (fun c hc => lowerChar_eq_self (hg c hc))
  have h2 : sanitize l = l := map_eq_self_of_fix (fun c hc => sanitizeChar_eq_self (hg c hc))
  have h3 : collapseWs l = l := collapseWs_eq_self l hg hn
  have h4 : stripLeft l = l := stripLeft_eq_self l hh
  have h5 : rstripWs l = l := rstripWs_eq_self l hl
  rw [preprocess_text, h1, h2, h3, stripWs, h4, h5]

theorem canon_preprocess (t : Text) : canonP (preprocess_text t) := by
  have hA : ∀ c ∈ sanitize (toLowerL t), allowedChar c = true := by
    intro c hc
    rcases List.mem_map.mp hc with ⟨x, _, hx⟩
    exact hx ▸ sanitizeChar_allowed x
  have hG : ∀ c ∈ collapseWs (sanitize (toLowerL t)), goodChar c = true :=
    collapseWs_all_good _ hA
  have hN : noAdjWs (collapseWs (sanitize (toLowerL t))) = true :=
    noAdjWs_collapseWs _
  refine ⟨?_, ?_, ?_, ?_⟩
  · intro c hc
    exact hG c (mem_stripLeft (mem_rstripWs hc))
  · exact noAdjWs_rstripWs _ (noAdjWs_stripLeft _ hN)
  · intro c hc
    rcases rstripWs_head? (stripLeft (collapseWs (sanitize (toLowerL t)))) with h0 | h0
    · rw [preprocess_text, stripWs, h0] at hc
      cases hc
    · rw [preprocess_text, stripWs, h0] at hc
      exact head?_stripLeft _ c hc
  · intro c hc
    exact getLast?_rstripWs _ c hc

theorem containsSub_nil (t : Text) : containsSub [] t = true := by
  induction t with
  | nil => rfl
  | cons c rest ih => simp [containsSub, startsWithL]

theorem length_insertSorted {α : Type} (le : α → α → Bool) (x : α) :
    ∀ l : List α, (insertSorted le x l).length = l.length + 1 := by
  intro l
  induction l with
  | nil => rfl
  | cons y ys ih =>
    rw [insertSorted]
    split
    · simp
    · simp [ih]

theorem length_stableSort {α : Type} (le : α → α → Bool) :
    ∀ l : List α, (stableSort le l).length = l.length := by
  intro l
  induction l with
  | nil => rfl
  | cons x xs ih => simp [stableSort, length_insertSorted, ih]

theorem mem_insertSorted {α : Type} (le : α → α → Bool) (x a : α) :
    ∀ l : List α, a ∈ insertSorted le x l ↔ a = x ∨ a ∈ l := by
  intro l
  induction l with
  | nil => simp [insertSorted]
  | cons y ys ih =>
    rw [insertSorted]
    split
    · simp [List.mem_cons]
    · simp only [List.mem_cons, ih]
      tauto

theorem mem_stableSort {α : Type} (le : α → α → Bool) (a : α) :
    ∀ l : List α, a ∈ stableSort le l ↔ a ∈ l := by
  intro l
  induction l with
  | nil => simp [stableSort]
  | cons x xs ih =>
    rw [stableSort, mem_insertSorted]
    simp [ih, List.mem_cons]

theorem pairwise_insertSorted {α : Type} (le : α → α → Bool)
    (htrans : ∀ a b c, le a b = true → le b c = true → le a c = true)
    (htotal : ∀ a b, le a b = true ∨ le b a = true) (x : α) :
    ∀ l : List α, List.Pairwise (fun a b => le a b = true) l →
      List.Pairwise (fun a b => le a b = true) (insertSorted le x l) := by
  intro l
  induction l with
  | nil => intro _; simp [insertSorted]
  | cons y ys ih =>
    intro h
    rw [List.pairwise_cons] at h
    obtain ⟨hy, hys⟩ := h
    rw [insertSorted]
    split
    · next hxy =>
      rw [List.pairwise_cons]
      refine ⟨?_, List.pairwise_cons.mpr ⟨hy, hys⟩⟩
      intro b hb
      rcases List.mem_cons.mp hb with hb | hb
      · exact hb ▸ hxy
      · exact htrans x y b hxy (hy b hb)
    · next hxy =>
      rw [List.pairwise_cons]
      constructor
      · intro b hb
        rcases (mem_insertSorted le x b ys).mp hb with hb | hb
        · rcases htotal x y with h1 | h1
          · exact absurd h1 (by simpa using hxy)
          · exact hb.symm ▸ h1
        · exact hy b hb
      · exact ih hys

theorem pairwise_stableSort {α : Type} (le : α → α → Bool)
    (htrans : ∀ a b c, le a b = true → le b c = true → le a c = true)
    (htotal : ∀ a b, le a b = true ∨ le b a = true) :
    ∀ l : List α, List.Pairwise (fun a b => le a b = true) (stableSort le l) := by
  intro l
  induction l with
  | nil => exact List.Pairwise.nil
  | cons x xs ih => exact pairwise_insertSorted le htrans htotal x _ ih

/-- C7: preprocess_text, the text normalizer shared by the recommender and the
ATS scorer, is idempotent: applying it twice gives the same result as applying
it once, for every input string. -/
theorem c7_preprocess_text_idempotent (x : Text) :
    preprocess_text (preprocess_text x) = preprocess_text x :=
  preprocess_eq_self_of_canon (canon_preprocess x)

/-- C1 counterexample: for the empty education text and a job text mentioning
a degree keyword, calculate_education_match returns 50 through its
missing-input guard, not 40 as claimed. -/
theorem c1_counterexample :
    calculate_education_match [] (strT "phd required") = 50 ∧
      calculate_education_match [] (strT "phd required") ≠ 40 := by
  constructor
  · rw [calculate_education_match, if_pos (Or.inl rfl)]
  · rw [calculate_education_match, if_pos (Or.inl rfl)]
    norm_num

/-- C1 (amended): for a profile whose education text is the empty string,
calculate_education_match returns 50 via the missing-input guard, whatever the
job text says; the 40 score belongs to the branch where the education text is
non-empty but contains no degree keyword. -/
theorem c1_amended (jd : Text) : calculate_education_match [] jd = 50 := by
  rw [calculate_education_match, if_pos (Or.inl rfl)]

theorem bestLevel_step_le (t : Text) (acc : ℚ) (p : Text × ℚ) :
    acc ≤ (if containsSub p.1 t && decide (acc < p.2) then p.2 else acc) := by
  split
  · next h =>
    simp only [Bool.and_eq_true, decide_eq_true_eq] at h
    exact le_of_lt h.2
  · exact le_refl acc

theorem foldl_bestLevel_ge (l : List (Text × ℚ)) (t : Text) :
    ∀ acc : ℚ,
      acc ≤ l.foldl (fun a p => if containsSub p.1 t && decide (a < p.2) then p.2 else a) acc := by
  induction l with
  | nil => intro acc; exact le_refl acc
  | cons p rest ih =>
    intro acc
    exact le_trans (bestLevel_step_le t acc p) (ih _)

theorem bestLevel_nonneg (t : Text) : 0 ≤ bestLevel t :=
  foldl_bestLevel_ge education_levels t 0

/-- C10: identify_skill_gaps with an empty user-skill list returns the empty
list for every job description: the falsy-input guard fires before any
vocabulary scan. -/
theorem c10_skill_gaps_empty_user (jd : Text) : identify_skill_gaps [] jd = [] := by
  rw [identify_skill_gaps, if_pos (Or.inr rfl)]

/-- C6: calculate_similarity on an empty job list returns the empty sequence
(for every profile text and every similarity oracle), and on an empty profile
text returns an all-zero sequence of the job-list length. -/
theorem c6_similarity_edge_cases :
    (∀ (oracle : Text → List Text → List ℚ) (p : Text),
        calculate_similarity oracle p [] = []) ∧
    (∀ (oracle : Text → List Text → List ℚ) (jts : List Text),
        calculate_similarity oracle [] jts = List.replicate jts.length 0) := by
  constructor
  · intro o p
    rw [calculate_similarity, if_pos (Or.inr rfl)]
    rfl
  · intro o jts
    rw [calculate_similarity, if_pos (Or.inl rfl)]

theorem pyRound1_nonneg {q : ℚ} (h : 0 ≤ q) : 0 ≤ pyRound1 q := by
  rw [pyRound1]
  apply div_nonneg _ (by norm_num)
  have h0 : (⌊(1 / 2 : ℚ)⌋ : ℤ) = 0 := by norm_num
  have hm : ⌊(1 / 2 : ℚ)⌋ ≤ ⌊q * 10 + 1 / 2⌋ := Int.floor_mono (by nlinarith)
  rw [h0] at hm
  exact_mod_cast hm

theorem pyRound1_le_100 {q : ℚ} (h : q ≤ 100) : pyRound1 q ≤ 100 := by
  rw [pyRound1]
  have h1000 : (⌊(2001 / 2 : ℚ)⌋ : ℤ) = 1000 := by
    apply Int.floor_eq_iff.mpr
    constructor <;> norm_num
  have hm : ⌊q * 10 + 1 / 2⌋ ≤ ⌊(2001 / 2 : ℚ)⌋ := Int.floor_mono (by nlinarith)
  rw [h1000] at hm
  have hq : ((⌊q * 10 + 1 / 2⌋ : ℤ) : ℚ) ≤ 1000 := by exact_mod_cast hm
  linarith

/-- C3: the combined ATS overall score equals the weighted sum of the four
sub-scores (keywords and skills at 35 percent each, experience at 20 percent,
education at 10 percent) rounded to one decimal place, and lies in the
interval from 0 to 100 whenever each sub-score does. -/
theorem c3_overall_score (kw sk ex ed : ℚ)
    (h1 : 0 ≤ kw) (h2 : kw ≤ 100) (h3 : 0 ≤ sk) (h4 : sk ≤ 100)
    (h5 : 0 ≤ ex) (h6 : ex ≤ 100) (h7 : 0 ≤ ed) (h8 : ed ≤ 100) :
    overall_score kw sk ex ed =
        pyRound1 (0.35 * kw + 0.35 * sk + 0.20 * ex + 0.10 * ed) ∧
      0 ≤ overall_score kw sk ex ed ∧ overall_score kw sk ex ed ≤ 100 := by
  have hsum0 : 0 ≤ kw * 0.35 + sk * 0.35 + ex * 0.20 + ed * 0.10 := by nlinarith
  have hsum100 : kw * 0.35 + sk * 0.35 + ex * 0.20 + ed * 0.10 ≤ 100 := by nlinarith
  refine ⟨by rw [overall_score]; congr 1; ring, ?_, ?_⟩
  · rw [overall_score]
    exact pyRound1_nonneg hsum0
  · rw [overall_score]
    exact pyRound1_le_100 hsum100

/-- C3 witness at the all-50 sub-score tuple. -/
theorem c3_overall_score_witness :
    overall_score 50 50 50 50 =
        pyRound1 (0.35 * 50 + 0.35 * 50 + 0.20 * 50 + 0.10 * 50) ∧
      0 ≤ overall_score 50 50 50 50 ∧ overall_score 50 50 50 50 ≤ 100 :=
  c3_overall_score 50 50 50 50 (by norm_num) (by norm_num) (by norm_num) (by norm_num)
    (by norm_num) (by norm_num) (by norm_num) (by norm_num)

/-- C9: when the comma-split user-skills string contains an empty entry, that
entry is a substring of every job text, so for a job text containing none of
the common-skills vocabulary the required list is empty, something matched,
and the score is 100 rather than the neutral 50. -/
theorem c9_skills_match_empty_entry (u j : Text)
    (h1 : [] ∈ atsUserSkillsList (.str u))
    (h2 : ∀ s ∈ common_skills, containsSub s (toLowerL j) = false) :
    (calculate_skills_match (.str u) j).score = 100 ∧
      0 < (calculate_skills_match (.str u) j).total_matched := by
  have hreq : common_skills.filter (fun s => containsSub s (toLowerL j)) = [] :=
    List.filter_eq_nil_iff.mpr (fun a ha => by simp [h2 a ha])
  have hmem : ([] : Text) ∈ (atsUserSkillsList (.str u)).filter
      (fun s => containsSub s (toLowerL j)) :=
    List.mem_filter.mpr ⟨h1, containsSub_nil _⟩
  have hne : (atsUserSkillsList (.str u)).filter (fun s => containsSub s (toLowerL j)) ≠ [] :=
    List.ne_nil_of_mem hmem
  constructor
  · simp only [calculate_skills_match, hreq]
    rw [if_neg (by simp), if_pos hne]
    norm_num
  · show 0 < ((atsUserSkillsList (.str u)).filter (fun s => containsSub s (toLowerL j))).length
    exact List.length_pos.mpr hne

/-- C9 witness: the empty skills string with a job text outside the
vocabulary. -/
theorem c9_skills_match_empty_entry_witness :
    (calculate_skills_match (.str (strT "")) (strT "hello")).score = 100 ∧
      0 < (calculate_skills_match (.str (strT "")) (strT "hello")).total_matched :=
  c9_skills_match_empty_entry (strT "") (strT "hello") (by decide) (by decide)

theorem skill_keywords_rec_clean :
    ∀ s ∈ skill_keywords_rec, s ≠ [] ∧ stripWs s = s := by decide

/-- C5: for every user-skill list and job description, the skill-gap result
has at most 10 entries; every entry belongs to the fixed vocabulary, occurs as
a substring of the normalized job text, and is not (case-insensitively) one of
the user's declared skills. -/
theorem c5_skill_gap_invariants (user_skills : List Text) (jd : Text) :
    (identify_skill_gaps user_skills jd).length ≤ 10 ∧
      ∀ s ∈ identify_skill_gaps user_skills jd,
        s ∈ skill_keywords_rec ∧
          containsSub s (preprocess_text (toLowerL jd)) = true ∧
          ∀ u ∈ user_skills, toLowerL u ≠ s := by
  by_cases hg : jd = [] ∨ user_skills = []
  · rw [identify_skill_gaps, if_pos hg]
    simp
  · simp only [identify_skill_gaps]
    rw [if_neg hg]
    constructor
    · exact List.length_take_le _ _
    · intro s hs
      have hs1 := List.mem_dedup.mp (List.mem_of_mem_take hs)
      obtain ⟨hjob, hnot⟩ := List.mem_filter.mp hs1
      obtain ⟨hvocab, hsub⟩ := List.mem_filter.mp hjob
      refine ⟨hvocab, hsub, ?_⟩
      intro u hu heq
      obtain ⟨hsne, hstrip⟩ := skill_keywords_rec_clean s hvocab
      have hune : u ≠ [] := by
        intro h0
        subst h0
        exact hsne heq.symm
      have hmemset : stripWs (toLowerL u) ∈
          (user_skills.filter (fun x => !x.isEmpty)).map (fun x => stripWs (toLowerL x)) :=
        List.mem_map_of_mem _ (List.mem_filter.mpr ⟨hu, by simp [hune]⟩)
      rw [heq, hstrip] at hmemset
      simp only [Bool.not_eq_true', decide_eq_false_iff_not] at hnot
      exact hnot hmemset

/-- C5 witness at a concrete skill list and job description. -/
theorem c5_skill_gap_invariants_witness :
    (identify_skill_gaps [strT "docker"] (strT "python and docker")).length ≤ 10 ∧
      ∀ s ∈ identify_skill_gaps [strT "docker"] (strT "python and docker"),
        s ∈ skill_keywords_rec ∧
          containsSub s (preprocess_text (toLowerL (strT "python and docker"))) = true ∧
          ∀ u ∈ [strT "docker"], toLowerL u ≠ s :=
  c5_skill_gap_invariants [strT "docker"] (strT "python and docker")

theorem pooledSalaries_pos (jobs : List Job) : ∀ v ∈ pooledSalaries jobs, 0 < v := by
  induction jobs with
  | nil => intro v hv; cases hv
  | cons j rest ih =>
    intro v hv
    rw [pooledSalaries] at hv
    rcases List.mem_append.mp hv with hv | hv
    · rcases List.mem_append.mp hv with hv | hv
      · cases hmin : j.salary_min with
        | none => simp [hmin] at hv
        | some w =>
          simp only [hmin] at hv
          split at hv
          · next hw =>
            rw [List.mem_singleton] at hv
            exact hv ▸ hw
          · simp at hv
      · cases hmax : j.salary_max with
        | none => simp [hmax] at hv
        | some w =>
          simp only [hmax] at hv
          split at hv
          · next hw =>
            rw [List.mem_singleton] at hv
            exact hv ▸ hw
          · simp at hv
    · exact ih v hv

theorem pooledSalaries_nil_of_zero (jobs : List Job)
    (h : ∀ j ∈ jobs, (j.salary_min = none ∨ j.salary_min = some 0) ∧
        (j.salary_max = none ∨ j.salary_max = some 0)) :
    pooledSalaries jobs = [] := by
  induction jobs with
  | nil => rfl
  | cons j rest ih =>
    rw [pooledSalaries]
    obtain ⟨h1, h2⟩ := h j (by simp)
    have hrest := ih (fun x hx => h x (by simp [hx]))
    rcases h1 with h1 | h1 <;> rcases h2 with h2 | h2 <;>
      simp [h1, h2, hrest, lt_irrefl]

/-- C8: calculate_salary_statistics returns the all-zero record on the empty
job list and on any job list whose salary bounds are all zero or absent; when
positive values exist, the median is the pooled sorted list's element at index
n / 2 (the upper median for even n, not an average). -/
theorem c8_salary_statistics :
    calculate_salary_statistics [] = ⟨0, 0, 0, 0⟩ ∧
      (∀ jobs : List Job,
          (∀ j ∈ jobs, (j.salary_min = none ∨ j.salary_min = some 0) ∧
              (j.salary_max = none ∨ j.salary_max = some 0)) →
          calculate_salary_statistics jobs = ⟨0, 0, 0, 0⟩) ∧
      (∀ jobs : List Job, pooledSalaries jobs ≠ [] →
          (calculate_salary_statistics jobs).median =
            (stableSort (fun a b => decide (a ≤ b)) (pooledSalaries jobs)).getD
              ((pooledSalaries jobs).length / 2) 0) := by
  refine ⟨rfl, ?_, ?_⟩
  · intro jobs h
    have hp := pooledSalaries_nil_of_zero jobs h
    simp [calculate_salary_statistics, hp]
  · intro jobs hne
    have hfil : (pooledSalaries jobs).filter (fun s => decide (0 < s)) = pooledSalaries jobs :=
      List.filter_eq_self.mpr (fun v hv => by simp [pooledSalaries_pos jobs v hv])
    simp only [calculate_salary_statistics, hfil, if_neg hne]

/-- C2 counterexample: a single job whose description is MySQL yields the
entry SQL with count 2 (both sql and mysql are substrings of the corpus),
although only one job is present, so the count cannot be a
once-per-job-per-label count. -/
theorem c2_counterexample :
    analyze_skill_demand [{ description := strT "MySQL" }] = [(strT "SQL", 2)] ∧
      ¬ (2 ≤ ([{ description := strT "MySQL" }] : List Job).length) := by
  constructor
  · decide
  · decide

/-- C2 (amended): analyze_skill_demand maps each label of the keyword table to
the number of that label's synonym keywords occurring as substrings of the
lowercased space-joined concatenation of all job descriptions (not a per-job
count), omits zero counts, and sorts descending by count. -/
theorem c2_skill_demand_amended (jobs : List Job) :
    (∀ (name : Text) (c : Nat),
        ((name, c) ∈ analyze_skill_demand jobs ↔
          ∃ kws, (name, kws) ∈ skill_keywords ∧ 0 < c ∧
            c = countKws kws (corpusOf jobs))) ∧
      List.Pairwise (fun a b => b.2 ≤ a.2) (analyze_skill_demand jobs) := by
  constructor
  · intro name c
    simp only [analyze_skill_demand]
    rw [mem_stableSort, List.mem_filterMap]
    constructor
    · rintro ⟨q, hq, hqe⟩
      split at hqe
      · next hpos =>
        simp only [Option.some.injEq, Prod.mk.injEq] at hqe
        obtain ⟨h1, h2⟩ := hqe
        subst h1
        refine ⟨q.2, ?_, ?_, h2.symm⟩
        · simpa using hq
        · rw [← h2]
          exact hpos
      · cases hqe
    · rintro ⟨kws, hkw, hc, hceq⟩
      refine ⟨(name, kws), hkw, ?_⟩
      simp only [← hceq]
      rw [if_pos hc]
  · refine List.Pairwise.imp ?_
      (pairwise_stableSort (fun a b : Text × Nat => decide (b.2 ≤ a.2)) ?_ ?_ _)
    · intro a b h
      exact of_decide_eq_true h
    · intro a b c hab hbc
      simp only [decide_eq_true_eq] at *
      exact le_trans hbc hab
    · intro a b
      simp only [decide_eq_true_eq]
      exact le_total _ _

/-- C2 amended-claim witness at the single MySQL job. -/
theorem c2_skill_demand_amended_witness :
    (∀ (name : Text) (c : Nat),
        ((name, c) ∈ analyze_skill_demand [{ description := strT "MySQL" }] ↔
          ∃ kws, (name, kws) ∈ skill_keywords ∧ 0 < c ∧
            c = countKws kws (corpusOf [{ description := strT "MySQL" }]))) ∧
      List.Pairwise (fun a b => b.2 ≤ a.2)
        (analyze_skill_demand [{ description := strT "MySQL" }]) :=
  c2_skill_demand_amended [{ description := strT "MySQL" }]

/-- C4: for a non-empty job list and a profile with a non-empty combined
profile text, recommend_jobs returns a list sorted non-increasing by
similarity score (the sort is stable, ties keeping input order) whose length
is the minimum of top_n and the number of jobs — for every similarity
oracle. -/
theorem c4_recommend_jobs (oracle : Text → List Text → List ℚ) (p : Profile)
    (jobs : List Job) (top_n : Nat) (hjobs : jobs ≠ [])
    (hprof : combine_user_profile p ≠ []) :
    List.Pairwise (fun a b => b.similarity_score ≤ a.similarity_score)
        (recommend_jobs oracle p jobs top_n) ∧
      (recommend_jobs oracle p jobs top_n).length = min top_n jobs.length := by
  simp only [recommend_jobs]
  rw [if_neg hjobs, if_neg hprof]
  constructor
  · apply List.Pairwise.sublist (List.take_sublist _ _)
    refine List.Pairwise.imp ?_
      (pairwise_stableSort
        (fun a b : RecommendationEntry => decide (b.similarity_score ≤ a.similarity_score))
        ?_ ?_ _)
    · intro a b h
      exact of_decide_eq_true h
    · intro a b c hab hbc
      simp only [decide_eq_true_eq] at *
      exact le_trans hbc hab
    · intro a b
      simp only [decide_eq_true_eq]
      exact le_total _ _
  · rw [List.length_take, length_stableSort, List.length_map, List.enum_length]

/-- C4 witness: two jobs, a python-skilled profile, the empty-output oracle,
top_n of 5. -/
theorem c4_recommend_jobs_witness :
    List.Pairwise (fun a b => b.similarity_score ≤ a.similarity_score)
        (recommend_jobs (fun _ _ => []) { skills := .str (strT "python") }
          [{ title := strT "a" }, { title := strT "b" }] 5) ∧
      (recommend_jobs (fun _ _ => []) { skills := .str (strT "python") }
          [{ title := strT "a" }, { title := strT "b" }] 5).length =
        min 5 ([{ title := strT "a" }, { title := strT "b" }] : List Job).length :=
  c4_recommend_jobs (fun _ _ => []) { skills := .str (strT "python") }
    [{ title := strT "a" }, { title := strT "b" }] 5 (by simp) (by decide)

/-- C8 witness: a zero-salary job list and a pooled list 5, 3, 7 whose sorted
upper median is 5. -/
theorem c8_salary_statistics_witness :
    calculate_salary_statistics [{ salary_min := some 0 }] = ⟨0, 0, 0, 0⟩ ∧
      (calculate_salary_statistics
          [{ salary_min := some 5, salary_max := some 3 },
           { salary_max := some 7 }]).median = 5 := by
  constructor
  · exact c8_salary_statistics.2.1 _ (by decide)
  · have h := c8_salary_statistics.2.2
      [{ salary_min := some 5, salary_max := some 3 }, { salary_max := some 7 }]
      (by decide)
    rw [h]
    decide

end JobPlatform
